import Mathlib

/-!
Verification of the emulation-control subsystem of floss/decoding_manager.py:
the allocation shims, the return-address guard, and the snapshot/delta
collector driven by emulate_function.  Each definition is a shallow embedding
of the correspondingly named Python function or method; machine words are
modelled as Nat (allocator sizes and addresses) or Int (stack offsets, which
can be negative).
-/

set_option maxRecDepth 4096

namespace Floss

/-- Models floss.decoding_manager.round (lines 156-166).  The docstring of the
Python function says "Round `i` to the nearest greater-or-equal-to multiple of
`size`", but the code computes `i + (i - (i % size))` in the non-multiple
case. -/
def round (i size : Nat) : Nat :=
  if i % size == 0 then i
  else i + (i - (i % size))

/-- RtlAllocateHeapHook.MAX_ALLOCATION_SIZE (line 180): 10 MiB. -/
def MAX_ALLOCATION_SIZE : Nat := 10 * 1024 * 1024

/-- One allocation performed by RtlAllocateHeapHook._allocate_mem:
`va` is the returned base address, `size` the rounded-and-capped size by which
the heap cursor advances (also the length zero-written by writeMemory), and
`mapped` the bytes passed to addMemoryMap (size + 4 zero bytes). -/
structure AllocRecord where
  va : Nat
  size : Nat
  mapped : List Nat
deriving DecidableEq

/-- The mutable state of one RtlAllocateHeapHook instance: the heap cursor
`heap_addr` (initially 0x69690000, line 178) plus the log of the memory maps
the emulator has been given. -/
structure HeapState where
  heap_addr : Nat
  allocations : List AllocRecord
deriving DecidableEq

/-- A fresh hook instance whose cursor starts at `base`. -/
def initHeap (base : Nat) : HeapState := ⟨base, []⟩

/-- The size actually granted for a requested size: lines 183-185 of
_allocate_mem (`size = round(size, 0x1000)`, then capped at
MAX_ALLOCATION_SIZE). -/
def granted_size (size : Nat) : Nat :=
  let s := round size 0x1000
  if s > MAX_ALLOCATION_SIZE then MAX_ALLOCATION_SIZE else s

/-- Models `emu.writeMemory(va, "\x00" * n)` over an existing map: the first
`n` bytes become zero, the rest stay. -/
def write_zeros (bytes : List Nat) (n : Nat) : List Nat :=
  List.replicate n 0 ++ bytes.drop n

/-- RtlAllocateHeapHook._allocate_mem (lines 182-191): round and cap the size,
map `size + 4` zero bytes at the cursor, zero-write `size` bytes there,
advance the cursor by `size`, return the old cursor as the base address. -/
def allocate_mem (h : HeapState) (size : Nat) : Nat × HeapState :=
  let sz := granted_size size
  let va := h.heap_addr
  let mapped := write_zeros (List.replicate (sz + 4) 0) sz
  (va, ⟨h.heap_addr + sz, h.allocations ++ [⟨va, sz, mapped⟩]⟩)

/-- RtlAllocateHeapHook.hook for callname "ntdll.RtlAllocateHeap"
(lines 193-201): the requested size is read from stack offset 0xC and passed
to _allocate_mem; `requested` stands for that stack value. -/
def rtl_allocate_heap_hook (h : HeapState) (requested : Nat) : Nat × HeapState :=
  allocate_mem h requested

/-- AllocateHeap.hook for kernel32.LocalAlloc / GlobalAlloc / VirtualAlloc
(lines 211-221): the requested size is read from stack offset 0x8 and passed
to _allocate_mem unchanged. -/
def allocate_heap_hook (h : HeapState) (requested : Nat) : Nat × HeapState :=
  allocate_mem h requested

/-- MallocHeap.hook for callname "msvcrt.malloc" (lines 231-238): the
requested size is read from stack offset 0x4 into `requested` but the call
allocates the hard-coded size 0x100 instead. -/
def malloc_hook (h : HeapState) (requested : Nat) : Nat × HeapState :=
  allocate_mem h 0x100

/-- Run a sequence of allocation requests through one hook instance. -/
def alloc_run (h : HeapState) : List Nat → HeapState
  | [] => h
  | r :: rs => alloc_run (allocate_mem h r).2 rs

/-- The successive values of the heap cursor over a run: the cursor before any
allocation, then after each one. -/
def cursor_trace (h : HeapState) : List Nat → List Nat
  | [] => [h.heap_addr]
  | r :: rs => h.heap_addr :: cursor_trace (allocate_mem h r).2 rs

/-- Two granted regions `[va, va + size)` occupy disjoint address ranges. -/
def region_disjoint (a b : AllocRecord) : Prop :=
  a.va + a.size ≤ b.va ∨ b.va + b.size ≤ a.va

/-- The granted-size formula the specification states for the primary and
convenience allocators: `min(ceil(s/4096)*4096, 10*1024*1024)`.  Written from
the spec's words for comparison with `granted_size`, which is written from
the code. -/
def spec_granted_size (s : Nat) : Nat :=
  min (((s + 0xFFF) / 0x1000) * 0x1000) MAX_ALLOCATION_SIZE

end Floss

namespace Floss

/-- Zero-writing the first `n` bytes of a fresh map of `n + 4` zero bytes
leaves `n + 4` zero bytes: every granted region is entirely zero-filled. -/
theorem write_zeros_replicate (n : Nat) :
    write_zeros (List.replicate (n + 4) 0) n = List.replicate (n + 4) 0 := by
  rw [write_zeros, List.drop_replicate, Nat.add_sub_cancel_left, ← List.replicate_add]

/-- Field-level description of _allocate_mem: the returned base is the old
cursor, the cursor advances by the granted size, and the new allocation
record holds `granted_size size + 4` zero bytes. -/
theorem allocate_mem_spec (h : HeapState) (size : Nat) :
    (allocate_mem h size).1 = h.heap_addr ∧
    (allocate_mem h size).2.heap_addr = h.heap_addr + granted_size size ∧
    (allocate_mem h size).2.allocations
      = h.allocations
        ++ [⟨h.heap_addr, granted_size size, List.replicate (granted_size size + 4) 0⟩] := by
  refine ⟨rfl, rfl, ?_⟩
  show h.allocations
      ++ [⟨h.heap_addr, granted_size size,
            write_zeros (List.replicate (granted_size size + 4) 0) (granted_size size)⟩] = _
  rw [write_zeros_replicate]

/-- Claim C1 (code_bug evidence): at requested size 10 the code grants a
10-byte region while the claimed formula gives 4096; the code's `round`
disagrees with its own docstring, since round 5000 0x1000 = 9096 is not even a
multiple of 0x1000. -/
theorem granted_size_ten_diverges :
    granted_size 10 = 10 ∧ spec_granted_size 10 = 4096 ∧
    ¬ granted_size 10 = spec_granted_size 10 ∧
    round 5000 0x1000 = 9096 ∧ ¬ round 5000 0x1000 % 0x1000 = 0 := by
  refine ⟨by decide, by decide, by decide, by decide, by decide⟩

/-- Claim C2 (code_bug evidence): starting from cursor 0x69690000, requests of
10 then 5000 bytes return bases 0x69690000 and 0x6969000A — the first request
is rounded to 10, not 4096, so the second base is not the claimed
0x69691000. -/
theorem scenario_a_second_base :
    (allocate_mem (initHeap 0x69690000) 10).1 = 0x69690000 ∧
    (allocate_mem (allocate_mem (initHeap 0x69690000) 10).2 5000).1 = 0x6969000A ∧
    ¬ (allocate_mem (allocate_mem (initHeap 0x69690000) 10).2 5000).1 = 0x69691000 := by
  refine ⟨by decide, by decide, by decide⟩

/-- Claim C9: the msvcrt.malloc shim ignores the requested size read from the
stack and always grants exactly 0x100 = 256 bytes: the returned base is the
current cursor, the cursor advances by 256, the recorded region is 256 bytes
of zeroes (mapped with a 4-byte zero pad), and the result does not depend on
the requested size. -/
theorem malloc_hook_fixed_size (h : HeapState) (requested : Nat) :
    malloc_hook h requested = allocate_mem h 0x100 ∧
    (malloc_hook h requested).1 = h.heap_addr ∧
    (malloc_hook h requested).2.heap_addr = h.heap_addr + 0x100 ∧
    (malloc_hook h requested).2.allocations
      = h.allocations ++ [⟨h.heap_addr, 0x100, List.replicate (0x100 + 4) 0⟩] ∧
    (∀ other : Nat, malloc_hook h requested = malloc_hook h other) := by
  have hs := allocate_mem_spec h 0x100
  have hsz : granted_size 0x100 = 0x100 := by decide
  rw [hsz] at hs
  exact ⟨rfl, hs.1, hs.2.1, hs.2.2, fun other => rfl⟩

/-- The (buggy) round never shrinks its argument. -/
theorem le_round (i : Nat) : i ≤ round i 0x1000 := by
  unfold round
  split
  · exact Nat.le_refl i
  · exact Nat.le_add_right i _

/-- A positive request is granted a positive size. -/
theorem granted_size_pos {r : Nat} (hr : 0 < r) : 0 < granted_size r := by
  show 0 < if round r 0x1000 > MAX_ALLOCATION_SIZE then MAX_ALLOCATION_SIZE else round r 0x1000
  split
  · decide
  · exact Nat.lt_of_lt_of_le hr (le_round r)

/-- Invariant carried through an allocation run: recorded sizes stay positive,
every recorded region ends at or before the cursor, and the regions are
separated in allocation order. -/
theorem alloc_run_invariant (reqs : List Nat) (h : HeapState)
    (hpos : ∀ r ∈ reqs, 0 < r)
    (hsizes : ∀ a ∈ h.allocations, 0 < a.size)
    (hbound : ∀ a ∈ h.allocations, a.va + a.size ≤ h.heap_addr)
    (hsep : List.Pairwise (fun a b => a.va + a.size ≤ b.va) h.allocations) :
    (∀ a ∈ (alloc_run h reqs).allocations, 0 < a.size) ∧
    (∀ a ∈ (alloc_run h reqs).allocations, a.va + a.size ≤ (alloc_run h reqs).heap_addr) ∧
    List.Pairwise (fun a b => a.va + a.size ≤ b.va) (alloc_run h reqs).allocations := by
  induction reqs generalizing h with
  | nil => exact ⟨hsizes, hbound, hsep⟩
  | cons r rs ih =>
    have hr : 0 < r := hpos r (List.mem_cons_self r rs)
    have hrest : ∀ x ∈ rs, 0 < x := fun x hx => hpos x (List.mem_cons_of_mem r hx)
    show (∀ a ∈ (alloc_run (allocate_mem h r).2 rs).allocations, 0 < a.size) ∧ _
    refine ih (allocate_mem h r).2 hrest ?_ ?_ ?_
    · intro a ha
      rw [(allocate_mem_spec h r).2.2] at ha
      rcases List.mem_append.mp ha with hold | hnew
      · exact hsizes a hold
      · rcases List.mem_singleton.mp hnew with rfl
        exact granted_size_pos hr
    · intro a ha
      rw [(allocate_mem_spec h r).2.2] at ha
      rw [(allocate_mem_spec h r).2.1]
      rcases List.mem_append.mp ha with hold | hnew
      · exact Nat.le_trans (hbound a hold) (Nat.le_add_right _ _)
      · rcases List.mem_singleton.mp hnew with rfl
        exact Nat.le_refl _
    · rw [(allocate_mem_spec h r).2.2]
      refine List.pairwise_append.mpr ⟨hsep, List.pairwise_singleton _ _, ?_⟩
      intro a hold b hnew
      rcases List.mem_singleton.mp hnew with rfl
      exact hbound a hold

/-- The heap cursor trace always starts with the current cursor. -/
theorem cursor_trace_head (h : HeapState) (reqs : List Nat) :
    (cursor_trace h reqs).head? = some h.heap_addr := by
  cases reqs <;> rfl

/-- The heap cursor never decreases during an allocation run. -/
theorem cursor_trace_chain (reqs : List Nat) (h : HeapState) :
    List.Chain' (· ≤ ·) (cursor_trace h reqs) := by
  induction reqs generalizing h with
  | nil => simp [cursor_trace]
  | cons r rs ih =>
    rw [cursor_trace, List.chain'_cons']
    refine ⟨?_, ih (allocate_mem h r).2⟩
    intro y hy
    rw [cursor_trace_head] at hy
    rcases Option.mem_some_iff.mp hy with rfl
    rw [(allocate_mem_spec h r).2.1]
    exact Nat.le_add_right _ _

/-- Claim C4 (amended): within one run the heap cursor is monotonically
non-decreasing — unconditionally, zero-size requests included — and as long
as every requested size is positive the allocations have strictly increasing
base addresses and pairwise disjoint granted regions.  (Requests of size 0
advance the cursor by 0, so two such allocations share a base address — see
the counterexample.) -/
theorem alloc_run_monotone_disjoint (start : Nat) (reqs : List Nat) :
    List.Chain' (· ≤ ·) (cursor_trace (initHeap start) reqs) ∧
    ((∀ r ∈ reqs, 0 < r) →
      List.Pairwise (fun a b => a.va < b.va)
        (alloc_run (initHeap start) reqs).allocations ∧
      List.Pairwise region_disjoint (alloc_run (initHeap start) reqs).allocations) := by
  refine ⟨cursor_trace_chain reqs (initHeap start), ?_⟩
  intro hpos
  obtain ⟨hsz, hb, hsep⟩ := alloc_run_invariant reqs (initHeap start) hpos
    (by intro a ha; cases ha) (by intro a ha; cases ha) List.Pairwise.nil
  refine ⟨?_, ?_⟩
  · refine hsep.imp_of_mem ?_
    intro a b ha2 hb2 hr
    exact Nat.lt_of_lt_of_le (Nat.lt_add_of_pos_right (hsz a ha2)) hr
  · exact hsep.imp (fun hr => Or.inl hr)

/-- Witness for claim C4's amended theorem at a concrete run: for requests of
10 and 5000 bytes the cursor trace is monotone and, the positivity hypothesis
of the conditional part being discharged, the bases strictly increase and the
regions are disjoint. -/
theorem alloc_run_monotone_disjoint_witness :
    List.Chain' (· ≤ ·) (cursor_trace (initHeap 0x69690000) [10, 5000]) ∧
    List.Pairwise (fun a b => a.va < b.va)
      (alloc_run (initHeap 0x69690000) [10, 5000]).allocations ∧
    List.Pairwise region_disjoint (alloc_run (initHeap 0x69690000) [10, 5000]).allocations :=
  ⟨(alloc_run_monotone_disjoint 0x69690000 [10, 5000]).1,
   ((alloc_run_monotone_disjoint 0x69690000 [10, 5000]).2 (by decide)).1,
   ((alloc_run_monotone_disjoint 0x69690000 [10, 5000]).2 (by decide)).2⟩

/-- Counterexample to claim C4 as stated: two allocations of requested size 0
both return base 0x69690000 (the cursor advances by round 0 = 0), so
successive base addresses are not strictly increasing. -/
theorem alloc_zero_size_same_base_cex :
    ((alloc_run (initHeap 0x69690000) [0, 0]).allocations.map AllocRecord.va)
      = [0x69690000, 0x69690000] ∧
    ¬ List.Pairwise (fun a b : AllocRecord => a.va < b.va)
        (alloc_run (initHeap 0x69690000) [0, 0]).allocations := by
  have he : (alloc_run (initHeap 0x69690000) [0, 0]).allocations
      = [⟨0x69690000, 0, [0, 0, 0, 0]⟩, ⟨0x69690000, 0, [0, 0, 0, 0]⟩] := by decide
  constructor
  · rw [he]; rfl
  · intro hp
    rw [he] at hp
    exact Nat.lt_irrefl _ ((List.pairwise_cons.mp hp).1 _ (List.mem_cons_self _ _))

/-- The emulator state the return-address guard sees and mutates: a
pointer-sized read of memory at each address, the stack counter and the
program counter.  Addresses are Int so that negative stack offsets read
below the stack counter. -/
structure EmuState where
  mem : Int → Int
  sp : Int
  pc : Int

/-- One static call site, as emu.parseOpcode sees it in
ApiMonitor._get_return_vas: its address and its encoded length. -/
structure CallSite where
  va : Int
  size : Int
deriving DecidableEq

/-- ApiMonitor._get_return_vas (lines 73-83): the valid return target of each
static caller is the address just past its call instruction. -/
def get_return_vas (callers : List CallSite) : List Int :=
  callers.map (fun c => c.va + c.size)

/-- Monitor.getStackValue: a pointer-sized read at stack counter + offset. -/
def getStackValue (s : EmuState) (offset : Int) : Int :=
  s.mem (s.sp + offset)

/-- Lines 60-62 of ApiMonitor._check_return: when the return instruction
carries an operand (ret imm16), the stack counter is set to
`getStackCounter() - op.opers[0].imm` before the check. -/
def adjust_ret_imm (opImm : Option Int) (s : EmuState) : EmuState :=
  match opImm with
  | some imm => { s with sp := s.sp - imm }
  | none => s

/-- Line 64: the return address the guard checks is read at offset -4 from
the (possibly adjusted) stack counter. -/
def observed_return (opImm : Option Int) (s : EmuState) : Int :=
  getStackValue (adjust_ret_imm opImm s) (-4)

/-- The stack offsets ApiMonitor._fix_return scans:
xrange(0, 4 * pointer_size, pointer_size) for a positive pointer size. -/
def search_offsets (psize : Int) : List Int :=
  [0, psize, 2 * psize, 3 * psize]

/-- ApiMonitor._fix_return (lines 85-106): the first scanned slot holding a
member of the valid-target set sets the program counter to that value and the
stack counter just past the slot; `none` models the Exception raised when no
slot matches. -/
def fix_return (vas : List Int) (psize : Int) (s : EmuState) : Option EmuState :=
  match (search_offsets psize).find? (fun off => vas.contains (getStackValue s off)) with
  | some off => some { s with pc := getStackValue s off, sp := s.sp + off + psize }
  | none => none

/-- ApiMonitor._check_return (lines 50-71): compute the valid-target set,
apply the ret-imm adjustment, read the observed return address at offset -4,
and either accept it (no further action) or run _fix_return; `none` models
the Exception _fix_return raises. -/
def check_return (callers : List CallSite) (opImm : Option Int) (psize : Int)
    (s : EmuState) : Option EmuState :=
  let vas := get_return_vas callers
  let s1 := adjust_ret_imm opImm s
  if vas.contains (getStackValue s1 (-4)) then some s1
  else fix_return vas psize s1

/-- ApiMonitor.posthook (lines 42-48) around _check_return: the Exception
from _fix_return is caught and only logged, so the emulator is left in the
state current when it was raised — the ret-imm-adjusted state. -/
def posthook_ret (callers : List CallSite) (opImm : Option Int) (psize : Int)
    (s : EmuState) : EmuState :=
  match check_return callers opImm psize s with
  | some s2 => s2
  | none => adjust_ret_imm opImm s

end Floss

namespace Floss

/-- Claim C3 (amended): for a return instruction carrying an immediate
operand, the guard decreases (not increases) the stack pointer by that
immediate, and the observed return value it checks is then read 4 bytes below
the decreased stack pointer. -/
theorem ret_imm_adjusts_sp_downward (imm : Int) (s : EmuState) :
    (adjust_ret_imm (some imm) s).sp = s.sp - imm ∧
    observed_return (some imm) s = s.mem (s.sp - imm + (-4)) ∧
    (∀ callers psize, get_return_vas callers = [] →
      posthook_ret callers (some imm) psize s = adjust_ret_imm (some imm) s) := by
  refine ⟨rfl, rfl, ?_⟩
  intro callers psize hv
  rw [posthook_ret, check_return, hv]
  show (match fix_return [] psize (adjust_ret_imm (some imm) s) with
        | some s2 => s2
        | none => adjust_ret_imm (some imm) s) = _
  rw [fix_return]
  have : (search_offsets psize).find?
      (fun off => List.contains [] (getStackValue (adjust_ret_imm (some imm) s) off)) = none := by
    rw [List.find?_eq_none]
    intro x _
    simp [List.contains]
  rw [this]

/-- A concrete emulator state used by the C3 counterexample: stack counter
100, all memory zero. -/
def retImmState : EmuState := ⟨fun _ => 0, 100, 7⟩

/-- Counterexample to claim C3 as stated: with stack counter 100 and
immediate 4, the guard moves the stack counter to 96 = 100 - 4, not to
104 = 100 + 4, before reading the observed return value. -/
theorem ret_imm_sp_decrease_cex :
    (adjust_ret_imm (some 4) retImmState).sp = 96 ∧
    ¬ (adjust_ret_imm (some 4) retImmState).sp = retImmState.sp + 4 ∧
    observed_return (some 4) retImmState = retImmState.mem 92 := by
  refine ⟨rfl, by decide, rfl⟩

/-- On a strictly increasing list, find? returns the least element satisfying
the predicate: every other satisfying element is at least it. -/
theorem find?_min_of_sorted {p : Int → Bool} :
    ∀ (l : List Int) (a : Int), l.find? p = some a → l.Pairwise (· < ·) →
      ∀ b ∈ l, p b = true → a ≤ b := by
  intro l
  induction l with
  | nil => intro a h; cases h
  | cons x xs ih =>
    intro a hfind hpair b hb hpb
    cases hpx : p x with
    | true =>
      rw [List.find?_cons_of_pos _ hpx] at hfind
      obtain rfl : x = a := Option.some_inj.mp hfind
      rcases List.mem_cons.mp hb with rfl | hbx
      · exact Int.le_refl _
      · exact Int.le_of_lt ((List.pairwise_cons.mp hpair).1 b hbx)
    | false =>
      rw [List.find?_cons_of_neg _ (by rw [hpx]; exact Bool.false_ne_true)] at hfind
      rcases List.mem_cons.mp hb with rfl | hbx
      · rw [hpx] at hpb
        exact Bool.noConfusion hpb
      · exact ih a hfind (List.pairwise_cons.mp hpair).2 b hbx hpb

/-- For a positive pointer size the scanned offsets 0, p, 2p, 3p are strictly
increasing: the scan really is forward-only from the top of the stack. -/
theorem search_offsets_sorted {psize : Int} (hp : 0 < psize) :
    List.Pairwise (· < ·) (search_offsets psize) := by
  rw [search_offsets]
  refine List.Pairwise.cons ?_ (List.Pairwise.cons ?_
    (List.Pairwise.cons ?_ (List.pairwise_singleton _ _)))
  · intro b hb
    rcases List.mem_cons.mp hb with rfl | hb2
    · omega
    rcases List.mem_cons.mp hb2 with rfl | hb3
    · omega
    rcases List.mem_singleton.mp hb3 with rfl
    omega
  · intro b hb
    rcases List.mem_cons.mp hb with rfl | hb2
    · omega
    rcases List.mem_singleton.mp hb2 with rfl
    omega
  · intro b hb
    rcases List.mem_singleton.mp hb with rfl
    omega

/-- Claim C5 (amended): on every retired return instruction, once the
immediate stack-adjustment (if any) has been applied: an observed return
value in the valid-target set causes no further mutation; otherwise a match
within the 4-slot window sets the program counter to the first matching
slot's value (the returned offset is minimal among all matching offsets in
the window) and the stack pointer just past that slot; and with no match the
state is left as adjusted, the exception being caught and logged. -/
theorem check_return_branches (callers : List CallSite) (opImm : Option Int)
    (psize : Int) (s : EmuState) (hp : 0 < psize) :
    ((get_return_vas callers).contains (observed_return opImm s) = true →
      posthook_ret callers opImm psize s = adjust_ret_imm opImm s) ∧
    ((get_return_vas callers).contains (observed_return opImm s) = false →
      ((∃ off ∈ search_offsets psize,
          (get_return_vas callers).contains
            (getStackValue (adjust_ret_imm opImm s) off) = true) →
        ∃ off ∈ search_offsets psize,
          (get_return_vas callers).contains
            (getStackValue (adjust_ret_imm opImm s) off) = true ∧
          (∀ off2 ∈ search_offsets psize,
            (get_return_vas callers).contains
              (getStackValue (adjust_ret_imm opImm s) off2) = true → off ≤ off2) ∧
          posthook_ret callers opImm psize s
            = { adjust_ret_imm opImm s with
                  pc := getStackValue (adjust_ret_imm opImm s) off,
                  sp := (adjust_ret_imm opImm s).sp + off + psize }) ∧
      ((∀ off ∈ search_offsets psize,
          (get_return_vas callers).contains
            (getStackValue (adjust_ret_imm opImm s) off) = false) →
        posthook_ret callers opImm psize s = adjust_ret_imm opImm s)) := by
  constructor
  · intro hin
    rw [observed_return] at hin
    simp only [posthook_ret, check_return, hin, if_true]
  · intro hout
    rw [observed_return] at hout
    constructor
    · intro hex
      have hsome : ((search_offsets psize).find?
          (fun off => (get_return_vas callers).contains
            (getStackValue (adjust_ret_imm opImm s) off))).isSome = true := by
        rw [List.find?_isSome]
        exact hex
      obtain ⟨off0, heq⟩ := Option.isSome_iff_exists.mp hsome
      have hoff := @List.find?_some Int
        (fun off => (get_return_vas callers).contains
          (getStackValue (adjust_ret_imm opImm s) off))
        off0 (search_offsets psize) heq
      have hmin : ∀ off2 ∈ search_offsets psize,
          (get_return_vas callers).contains
            (getStackValue (adjust_ret_imm opImm s) off2) = true → off0 ≤ off2 :=
        fun off2 hmem hcon =>
          find?_min_of_sorted (search_offsets psize) off0 heq
            (search_offsets_sorted hp) off2 hmem hcon
      refine ⟨off0, List.mem_of_find?_eq_some heq, hoff, hmin, ?_⟩
      simp only [posthook_ret, check_return, fix_return, hout, Bool.false_eq_true,
        if_false, heq]
    · intro hall
      have hnone : ((search_offsets psize).find?
          (fun off => (get_return_vas callers).contains
            (getStackValue (adjust_ret_imm opImm s) off))) = none := by
        rw [List.find?_eq_none]
        intro x hx
        rw [hall x hx]
        exact Bool.false_ne_true
      simp only [posthook_ret, check_return, fix_return, hout, Bool.false_eq_true,
        if_false, hnone]

/-- A concrete run-repair scenario: the valid-target set from the single
caller at 96 of size 4 is [100]; the stack top is invalid but the slot at
offset +8 holds 100. -/
def wCallers : List CallSite := [⟨96, 4⟩]

/-- The emulator state for the C5 witness: stack counter 0, the slot at
offset +8 holding 100, everything else zero. -/
def wState : EmuState := ⟨fun a => if a = 8 then 100 else 0, 0, 55⟩

/-- Witness for claim C5's amended theorem at a concrete scenario: a no-operand
return whose stack-top value is invalid but whose slot at +8 is valid. -/
theorem check_return_branches_witness :
    ((get_return_vas wCallers).contains (observed_return none wState) = true →
      posthook_ret wCallers none 4 wState = adjust_ret_imm none wState) ∧
    ((get_return_vas wCallers).contains (observed_return none wState) = false →
      ((∃ off ∈ search_offsets 4,
          (get_return_vas wCallers).contains
            (getStackValue (adjust_ret_imm none wState) off) = true) →
        ∃ off ∈ search_offsets 4,
          (get_return_vas wCallers).contains
            (getStackValue (adjust_ret_imm none wState) off) = true ∧
          (∀ off2 ∈ search_offsets 4,
            (get_return_vas wCallers).contains
              (getStackValue (adjust_ret_imm none wState) off2) = true → off ≤ off2) ∧
          posthook_ret wCallers none 4 wState
            = { adjust_ret_imm none wState with
                  pc := getStackValue (adjust_ret_imm none wState) off,
                  sp := (adjust_ret_imm none wState).sp + off + 4 }) ∧
      ((∀ off ∈ search_offsets 4,
          (get_return_vas wCallers).contains
            (getStackValue (adjust_ret_imm none wState) off) = false) →
        posthook_ret wCallers none 4 wState = adjust_ret_imm none wState)) :=
  check_return_branches wCallers none 4 wState (by decide)

/-- The emulator state for the C5 counterexample: stack counter 100, the word
at address 92 holding 200, everything else zero. -/
def validRetState : EmuState := ⟨fun a => if a = 92 then 200 else 0, 100, 7⟩

/-- The single caller for the C5 counterexample: call at 190 of size 10, so
the valid-target set is [200]. -/
def validRetCallers : List CallSite := [⟨190, 10⟩]

/-- Counterexample to claim C5 as stated: for a ret imm16 with immediate 4
whose observed return value 200 is in the valid-target set, the guard still
mutates state — the stack counter moves from 100 to 96. -/
theorem valid_return_mutation_cex :
    (get_return_vas validRetCallers).contains
      (observed_return (some 4) validRetState) = true ∧
    (posthook_ret validRetCallers (some 4) 4 validRetState).sp = 96 ∧
    ¬ (posthook_ret validRetCallers (some 4) 4 validRetState).sp = validRetState.sp := by
  refine ⟨by decide, by decide, by decide⟩

/-- The Snapshot namedtuple (lines 264-269): memory snapshot, stack counter,
program counter.  The opaque envi memory snapshot is modelled as a list of
words. -/
structure Snapshot where
  memory : List Nat
  sp : Int
  pc : Int
deriving DecidableEq

/-- The Delta namedtuple (lines 281-287): the pair of snapshots from before
and after an operation. -/
structure Delta where
  pre_snap : Snapshot
  post_snap : Snapshot
deriving DecidableEq

/-- The face of the emulator the collector reads: the current memory snapshot,
stack counter, program counter, and getVivTaint — for a tainted address, the
taint value and the taint type string whose second component line 261
compares with "import". -/
structure Emu where
  memSnap : List Nat
  sp : Int
  pc : Int
  taints : Int → Option (Int × String)

/-- make_snapshot (lines 272-278). -/
def make_snapshot (e : Emu) : Snapshot :=
  ⟨e.memSnap, e.sp, e.pc⟩

/-- is_import (lines 253-261): an address is imported when it has a viv taint
whose type is "import". -/
def is_import (e : Emu) (va : Int) : Bool :=
  match e.taints va with
  | none => false
  | some t => t.2 == "import"

/-- DeltaCollectorHook.hook (lines 301-303) at one call event: `e` is the
driver's emulator, whose program counter is the call's target when the driver
dispatches hooks.  A Delta anchored at the run's pre-snapshot is appended
when the target is imported; the method has no return statement, so it
always yields None (the second component) and never claims the call. -/
def delta_collector_hook (pre : Snapshot) (deltas : List Delta) (e : Emu) :
    List Delta × Option Bool :=
  if is_import e e.pc then (deltas ++ [⟨pre, make_snapshot e⟩], none)
  else (deltas, none)

/-- The deltas the collector holds after the run's call events, in order,
starting from its empty initial list (line 299). -/
def collect_deltas (pre : Snapshot) (events : List Emu) : List Delta :=
  events.foldl (fun ds e => (delta_collector_hook pre ds e).1) []

/-- The typed faults emulate_function's try/except arms (lines 348-363)
distinguish: viv_utils.InstructionRangeExceededError, envi's
InvalidInstruction / UnsupportedInstruction / BreakpointHit,
viv_utils.StopEmulation, and the catch-all `except Exception`. -/
inductive EmuFault where
  | instructionRangeExceeded
  | invalidInstruction
  | unsupportedInstruction
  | breakpointHit
  | stopEmulation
  | genericException (msg : String)
deriving DecidableEq

/-- Which faults the except arms of emulate_function absorb: one case per
arm, the last being the bare `except Exception` (lines 361-363). -/
def caught_by_emulate : EmuFault → Bool
  | .instructionRangeExceeded => true
  | .invalidInstruction => true
  | .unsupportedInstruction => true
  | .breakpointHit => true
  | .stopEmulation => true
  | .genericException _ => true

/-- What one driver.runToVa run produced before control came back to
emulate_function: the emulator states at the retired call events (in temporal
order), the emulator's state when the run ended, and the fault that ended it,
if any. -/
structure RunOutcome where
  callEmus : List Emu
  finalEmu : Emu
  fault : Option EmuFault

/-- The delta list emulate_function returns (lines 366-368): the collector's
deltas plus one trailing Delta of the initial snapshot and the final state. -/
def run_result (pre_emu : Emu) (run : RunOutcome) : List Delta :=
  collect_deltas (make_snapshot pre_emu) run.callEmus
    ++ [⟨make_snapshot pre_emu, make_snapshot run.finalEmu⟩]

/-- emulate_function (lines 306-368): take the pre-run snapshot, run the
driver, absorb any fault its except arms catch (logging only), then append
the final Delta and return the list.  An uncaught fault would escape as
`Except.error`. -/
def emulate_function (pre_emu : Emu) (run : RunOutcome) :
    Except EmuFault (List Delta) :=
  match run.fault with
  | none => .ok (run_result pre_emu run)
  | some f =>
      if caught_by_emulate f then .ok (run_result pre_emu run)
      else .error f

/-- Python truthiness of a hook's return value in the driver's dispatch loop:
only an explicit True stops the hook chain. -/
def hook_claims (r : Option Bool) : Bool :=
  match r with
  | some true => true
  | _ => false

/-- Modelled from the spec: the hook-registration contract of section 6 (the
driver dispatch loop lives in viv_utils, outside this repository) — hooks
form an ordered list and the first one whose result claims the call stops
the chain; the index of that hook, if any. -/
def first_handler : List (Option Bool) → Option Nat
  | [] => none
  | r :: rs => if hook_claims r then some 0 else (first_handler rs).map (fun n => n + 1)

end Floss

namespace Floss

/-- Claim C8: at a call event, the collector appends the Delta anchored at the
pre-run snapshot exactly when the call's target (the emulator's program
counter at hook time) is classified imported, and leaves its list unchanged
exactly when it is not. -/
theorem delta_collector_iff_import (pre : Snapshot) (ds : List Delta) (e : Emu) :
    ((delta_collector_hook pre ds e).1 = ds ++ [⟨pre, make_snapshot e⟩]
        ↔ is_import e e.pc = true) ∧
    ((delta_collector_hook pre ds e).1 = ds ↔ is_import e e.pc = false) := by
  cases h : is_import e e.pc
  · simp [delta_collector_hook, h]
  · simp [delta_collector_hook, h]

/-- Claim C10: the collector's hook result is always None — Python truthiness
never sees it as a claim — so in the ordered hook chain the first claiming
hook among the collector followed by any other hooks is exactly the first
claiming hook among the others. -/
theorem delta_collector_never_claims (pre : Snapshot) (ds : List Delta) (e : Emu)
    (rest : List (Option Bool)) :
    (delta_collector_hook pre ds e).2 = none ∧
    hook_claims (delta_collector_hook pre ds e).2 = false ∧
    first_handler ((delta_collector_hook pre ds e).2 :: rest)
      = (first_handler rest).map (fun n => n + 1) := by
  cases h : is_import e e.pc <;>
    simp [delta_collector_hook, h, first_handler, hook_claims]

/-- Claim C6: emulate_function absorbs every fault its run can end with and
returns the delta list; that list is never empty, and its last element is the
one trailing Delta pairing the initial snapshot with the emulator's state at
the end of the run. -/
theorem emulate_function_total_final (pre_emu : Emu) (run : RunOutcome) :
    emulate_function pre_emu run = Except.ok (run_result pre_emu run) ∧
    run_result pre_emu run ≠ [] ∧
    (run_result pre_emu run).getLast?
      = some ⟨make_snapshot pre_emu, make_snapshot run.finalEmu⟩ := by
  refine ⟨?_, ?_, ?_⟩
  · cases hf : run.fault with
    | none => simp [emulate_function, hf]
    | some f => cases f <;> simp [emulate_function, hf, caught_by_emulate]
  · rw [run_result]
    simp
  · rw [run_result]
    exact List.getLast?_concat _

/-- Every delta the collector accumulates is anchored at the pre-run
snapshot, whatever list it starts from. -/
theorem collect_deltas_pre_aux (pre : Snapshot) (events : List Emu) (ds : List Delta)
    (hds : ∀ d ∈ ds, d.pre_snap = pre) :
    ∀ d ∈ events.foldl (fun a e => (delta_collector_hook pre a e).1) ds,
      d.pre_snap = pre := by
  induction events generalizing ds with
  | nil => simpa using hds
  | cons e es ih =>
    intro d hd
    rw [List.foldl_cons] at hd
    refine ih _ ?_ d hd
    intro x hx
    cases h : is_import e e.pc
    · rw [delta_collector_hook] at hx
      simp only [h] at hx
      exact hds x (by simpa using hx)
    · rw [delta_collector_hook] at hx
      simp only [h, if_true] at hx
      rcases List.mem_append.mp hx with hold | hnew
      · exact hds x hold
      · rcases List.mem_singleton.mp hnew with rfl
        rfl

/-- Claim C7: every Delta in the list emulate_function returns — those made
at imported calls and the trailing final one — has the run's single initial
snapshot as its pre-snapshot. -/
theorem run_result_pre_snap_const (pre_emu : Emu) (run : RunOutcome) :
    ∀ d ∈ run_result pre_emu run, d.pre_snap = make_snapshot pre_emu := by
  intro d hd
  rw [run_result] at hd
  rcases List.mem_append.mp hd with h1 | h2
  · exact collect_deltas_pre_aux (make_snapshot pre_emu) run.callEmus []
      (by intro x hx; cases hx) d h1
  · rcases List.mem_singleton.mp h2 with rfl
    rfl

/-- A concrete emulator for the C7 witness: empty memory, no taints. -/
def wEmu : Emu := ⟨[], 0, 0, fun _ => none⟩

/-- A concrete run for the C7 witness: no call events, no fault. -/
def wRun : RunOutcome := ⟨[], wEmu, none⟩

/-- Witness for claim C7: the trailing Delta of the concrete empty run is a
member of the returned list and its pre-snapshot is the initial snapshot. -/
theorem run_result_pre_snap_const_witness :
    (Delta.mk (make_snapshot wEmu) (make_snapshot wEmu)).pre_snap
      = make_snapshot wEmu :=
  run_result_pre_snap_const wEmu wRun
    ⟨make_snapshot wEmu, make_snapshot wEmu⟩ (by decide)

end Floss
